import Mathlib

/-!
Verification of the user-report dashboard's data-transformation logic.

The program loads a five-column CSV (Agent Code, Agent Name, User ID,
User Name, Role), forward-fills the first four columns, drops rows with a
missing Role, and serves five read-only views over the cleaned table.
We embed the loader and the view functions as pure functions over lists of
rows, where a cell is `Option String` (`none` models a missing value / NaN).
-/

namespace UsersApp

/-- One record of the report table: five cells, any of which may be missing
(`none` models pandas NaN). -/
structure Row where
  agentCode : Option String
  agentName : Option String
  userId : Option String
  userName : Option String
  role : Option String
deriving DecidableEq, Repr, Inhabited

/-- Default row used with `List.getD`. -/
def defaultRow : Row := ⟨none, none, none, none, none⟩

/-- One step of pandas `ffill` on a single cell: a present value replaces the
carried value, a missing cell keeps the carried value. -/
def fillVal (prev v : Option String) : Option String :=
  match v with
  | some s => some s
  | none => prev

/-- Forward-fill of the four identifying columns, carrying the most recent
non-missing value of each column (`df[cols] = df[cols].ffill()`). -/
def ffillAux (ac an ui un : Option String) : List Row → List Row
  | [] => []
  | r :: rs =>
    let ac₂ := fillVal ac r.agentCode
    let an₂ := fillVal an r.agentName
    let ui₂ := fillVal ui r.userId
    let un₂ := fillVal un r.userName
    { r with agentCode := ac₂, agentName := an₂, userId := ui₂, userName := un₂ } ::
      ffillAux ac₂ an₂ ui₂ un₂ rs

/-- `df[['Agent Code','Agent Name','User ID','User Name']].ffill()`: the carry
of each column starts empty. -/
def ffill (t : List Row) : List Row := ffillAux none none none none t

/-- The cleaning pipeline of `load_data` after the column rename: forward-fill
the four identifying columns, then keep only rows whose Role is present
(`df = df[df['Role'].notna()].reset_index(drop=True)`). -/
def cleanTable (t : List Row) : List Row :=
  (ffill t).filter (fun r => r.role.isSome)

/-- The raw CSV as parsed: a column count (from the header) and the data rows,
each a list of cells. -/
structure RawFile where
  ncols : Nat
  rows : List (List (Option String))
deriving DecidableEq, Repr

/-- Positional interpretation of a five-column data row. -/
def rowOfCells (cells : List (Option String)) : Row :=
  ⟨cells.getD 0 none, cells.getD 1 none, cells.getD 2 none, cells.getD 3 none,
   cells.getD 4 none⟩

/-- Error message of `pd.read_csv` when `UserReport.csv` does not exist. -/
def missingFileMsg : String := "FileNotFoundError: UserReport.csv"

/-- Error message of the positional column rename
`df.columns = [five names]` when the file does not have five columns. -/
def columnMismatchMsg : String :=
  "ValueError: Length mismatch: new values have 5 elements"

/-- `load_data`: read the CSV (`none` input models a missing file, which
raises), rename the columns positionally (raises unless the file has exactly
five columns), then clean. On success the whole cleaned table is produced;
on failure no table at all. -/
def load_data (file : Option RawFile) : Except String (List Row) :=
  match file with
  | none => .error missingFileMsg
  | some f =>
    if f.ncols = 5 then .ok (cleanTable (f.rows.map rowOfCells))
    else .error columnMismatchMsg

/-- First-occurrence deduplication: pandas `drop_duplicates()` on a data frame
and `Series.unique()` both keep the first occurrence of each value, in order
of appearance. -/
def drop_duplicates {α : Type} [DecidableEq α] : List α → List α
  | [] => []
  | x :: xs => x :: (drop_duplicates xs).filter (fun y => decide (y ≠ x))

/-- Lexicographic code-point comparison of character lists, as Python compares
strings. -/
def charListLe : List Char → List Char → Bool
  | [], _ => true
  | _ :: _, [] => false
  | a :: as, b :: bs => if a < b then true else if b < a then false else charListLe as bs

/-- Lexicographic order on strings (Python `sorted` order). -/
def strLe (a b : String) : Prop := charListLe a.data b.data = true

instance : DecidableRel strLe :=
  fun a b => inferInstanceAs (Decidable (charListLe a.data b.data = true))

theorem charListLe_total (as bs : List Char) :
    charListLe as bs = true ∨ charListLe bs as = true := by
  induction as generalizing bs with
  | nil => exact Or.inl rfl
  | cons a as ih =>
    cases bs with
    | nil => exact Or.inr rfl
    | cons b bs =>
      rcases lt_trichotomy a b with h | h | h
      · exact Or.inl (by simp [charListLe, h])
      · subst h
        rcases ih bs with h2 | h2
        · exact Or.inl (by simp [charListLe, h2])
        · exact Or.inr (by simp [charListLe, h2])
      · exact Or.inr (by simp [charListLe, h])

theorem charListLe_trans (as bs cs : List Char)
    (h1 : charListLe as bs = true) (h2 : charListLe bs cs = true) :
    charListLe as cs = true := by
  induction as generalizing bs cs with
  | nil => rfl
  | cons a as ih =>
    cases bs with
    | nil => simp [charListLe] at h1
    | cons b bs =>
      cases cs with
      | nil => simp [charListLe] at h2
      | cons c cs =>
        rcases lt_trichotomy a b with hab | hab | hab
        · rcases lt_trichotomy b c with hbc | hbc | hbc
          · simp [charListLe, lt_trans hab hbc]
          · subst hbc; simp [charListLe, hab]
          · simp [charListLe, not_lt_of_lt hbc, hbc] at h2
        · subst hab
          rcases lt_trichotomy a c with hac | hac | hac
          · simp [charListLe, hac]
          · subst hac
            simp [charListLe, lt_irrefl] at h1 h2 ⊢
            exact ih bs cs h1 h2
          · simp [charListLe, not_lt_of_lt hac, hac] at h2
        · simp [charListLe, not_lt_of_lt hab, hab] at h1

instance : IsTotal String strLe := ⟨fun a b => charListLe_total a.data b.data⟩

instance : IsTrans String strLe :=
  ⟨fun a b c h1 h2 => charListLe_trans a.data b.data c.data h1 h2⟩

/-- Descending-count order used by `value_counts` and
`sort_values(ascending=False)`. -/
def byCountDesc (p q : String × Nat) : Prop := q.2 ≤ p.2

instance : DecidableRel byCountDesc :=
  fun p q => inferInstanceAs (Decidable (q.2 ≤ p.2))

instance : IsTotal (String × Nat) byCountDesc :=
  ⟨fun a b => Nat.le_total b.2 a.2⟩

instance : IsTrans (String × Nat) byCountDesc :=
  ⟨fun _ _ _ hab hbc => le_trans hbc hab⟩

/-- `Series.value_counts()`: occurrence count of each distinct value, sorted
descending by count (NaN entries are never fed to it here: the Role column of
the cleaned table has none). -/
def value_counts (l : List String) : List (String × Nat) :=
  List.insertionSort byCountDesc ((drop_duplicates l).map (fun v => (v, l.count v)))

/-- The three-row example table used throughout the spec. -/
def exampleTable : List Row :=
  [⟨some "A1", some "Agt1", some "U1", some "Alice", some "Admin"⟩,
   ⟨some "A1", some "Agt1", some "U1", some "Alice", some "Viewer"⟩,
   ⟨some "A2", some "Agt2", some "U2", some "Bob", some "Admin"⟩]

/-- Projection used by the role filter view:
`filtered_df[['User ID', 'User Name', 'Agent Name']]`. -/
def projRU (r : Row) : Option String × Option String × Option String :=
  (r.userId, r.userName, r.agentName)

/-- `page_filter_by_role`: rows whose Role equals the selection, projected to
(User ID, User Name, Agent Name), deduplicated; the reported total is
`users.shape[0]`. -/
def page_filter_by_role (df : List Row) (ro : String) :
    List (Option String × Option String × Option String) × Nat :=
  let users := drop_duplicates ((df.filter (fun r => decide (r.role = some ro))).map projRU)
  (users, users.length)

/-- `page_filter_by_user`: distinct Role values (pandas `unique`, first
occurrence order) among rows with the selected User Name, and their number
(`len(roles)`). -/
def page_filter_by_user (df : List Row) (u : String) : List String × Nat :=
  let roles := drop_duplicates
    ((df.filter (fun r => decide (r.userName = some u))).filterMap (fun r => r.role))
  (roles, roles.length)

/-- One output row of the Agent → Users → Roles view. -/
structure AgentUserRow where
  userName : String
  roles : String
  numRoles : Nat
deriving DecidableEq, Repr

/-- `page_agent_users_roles`: restrict to the selected agent, group by User
Name (pandas groupby sorts the keys and drops missing ones), and per user emit
the distinct roles sorted and newline-joined plus their number; the reported
total is `grouped.shape[0]`. -/
def page_agent_users_roles (df : List Row) (a : String) : List AgentUserRow × Nat :=
  let fil := df.filter (fun r => decide (r.agentName = some a))
  let names := List.insertionSort strLe
    (drop_duplicates (fil.filterMap (fun r => r.userName)))
  let out := names.map (fun u =>
    let rls := drop_duplicates
      ((fil.filter (fun r => decide (r.userName = some u))).filterMap (fun r => r.role))
    AgentUserRow.mk u
      (String.intercalate "\n" (List.insertionSort strLe rls))
      rls.length)
  (out, out.length)

/-- `page_agent_user_counts` (and the body of `users_per_agent` before its
sort): group by Agent Name (keys sorted, missing keys dropped), count distinct
non-missing User ID per agent (`nunique`). -/
def agent_user_counts (df : List Row) : List (String × Nat) :=
  let agents := List.insertionSort strLe
    (drop_duplicates (df.filterMap (fun r => r.agentName)))
  agents.map (fun a =>
    (a, (drop_duplicates
      ((df.filter (fun r => decide (r.agentName = some a))).filterMap (fun r => r.userId))).length))

/-- `users_per_agent` of the statistics page:
`df.groupby('Agent Name')['User ID'].nunique().sort_values(ascending=False)`. -/
def users_per_agent (df : List Row) : List (String × Nat) :=
  List.insertionSort byCountDesc (agent_user_counts df)

/-- `role_counts` of the statistics page: `df['Role'].value_counts()`. -/
def role_counts (df : List Row) : List (String × Nat) :=
  value_counts (df.filterMap (fun r => r.role))

theorem mem_drop_duplicates {α : Type} [DecidableEq α] (a : α) (l : List α) :
    a ∈ drop_duplicates l ↔ a ∈ l := by
  induction l with
  | nil => simp [drop_duplicates]
  | cons x xs ih =>
    by_cases hax : a = x
    · subst hax; simp [drop_duplicates]
    · simp [drop_duplicates, List.mem_filter, hax, ih]

theorem nodup_drop_duplicates {α : Type} [DecidableEq α] (l : List α) :
    (drop_duplicates l).Nodup := by
  induction l with
  | nil => simp [drop_duplicates]
  | cons x xs ih =>
    simp only [drop_duplicates, List.nodup_cons]
    refine ⟨fun hmem => ?_, ih.filter _⟩
    have := (List.mem_filter.mp hmem).2
    simp at this

theorem length_drop_duplicates {α : Type} [DecidableEq α] (l : List α) :
    (drop_duplicates l).length = l.toFinset.card := by
  have hfs : (drop_duplicates l).toFinset = l.toFinset := by
    ext a
    simp [List.mem_toFinset, mem_drop_duplicates]
  calc (drop_duplicates l).length
      = (drop_duplicates l).toFinset.card :=
        (List.toFinset_card_of_nodup (nodup_drop_duplicates l)).symm
    _ = l.toFinset.card := by rw [hfs]

theorem pairwise_indexOf_drop_duplicates {α : Type} [DecidableEq α] (l : List α) :
    List.Pairwise (fun a b => l.indexOf a < l.indexOf b) (drop_duplicates l) := by
  induction l with
  | nil => simp [drop_duplicates]
  | cons x xs ih =>
    simp only [drop_duplicates]
    refine List.Pairwise.cons ?_ ?_
    · intro b hb
      have hbne : b ≠ x := by
        have := (List.mem_filter.mp hb).2
        simpa using this
      rw [List.indexOf_cons_self, List.indexOf_cons_ne xs (Ne.symm hbne)]
      exact Nat.succ_pos _
    · have hp : List.Pairwise (fun a b => xs.indexOf a < xs.indexOf b)
          ((drop_duplicates xs).filter (fun y => decide (y ≠ x))) :=
        ih.sublist (List.filter_sublist _)
      refine List.Pairwise.imp_of_mem ?_ hp
      intro a b ha hb hlt
      have hane : a ≠ x := by have := (List.mem_filter.mp ha).2; simpa using this
      have hbne : b ≠ x := by have := (List.mem_filter.mp hb).2; simpa using this
      rw [List.indexOf_cons_ne xs (Ne.symm hane), List.indexOf_cons_ne xs (Ne.symm hbne)]
      exact Nat.succ_lt_succ hlt

theorem count_filterMap_length {α β : Type} [DecidableEq β] (f : α → Option β)
    (l : List α) (b : β) :
    (l.filterMap f).count b = (l.filter (fun x => decide (f x = some b))).length := by
  induction l with
  | nil => rfl
  | cons x xs ih =>
    cases hfx : f x with
    | none => simp [List.filterMap_cons, hfx, List.filter_cons, ih]
    | some y =>
      by_cases hyb : y = b
      · subst hyb
        simp [List.filterMap_cons, hfx, List.filter_cons, List.count_cons, ih]
      · simp [List.filterMap_cons, hfx, List.filter_cons, List.count_cons, hyb, ih,
          Ne.symm hyb]

theorem fillVal_none (v : Option String) : fillVal none v = v := by
  cases v <;> rfl

theorem fillVal_ne_none (prev v : Option String) (h : prev ≠ none) :
    fillVal prev v ≠ none := by
  cases v <;> simp [fillVal, h]

/-- The nearest non-missing value in a column segment, looking backwards
(`none` when every value there is missing): the value forward-fill is
specified to produce. -/
def lastSome (col : List (Option String)) : Option String :=
  match col.reverse.find? (fun v => v.isSome) with
  | some v => v
  | none => none

theorem foldl_fillVal (col : List (Option String)) (acc : Option String) :
    col.foldl fillVal acc =
      match col.reverse.find? (fun v => v.isSome) with
      | some v => v
      | none => acc := by
  induction col generalizing acc with
  | nil => rfl
  | cons v vs ih =>
    simp only [List.foldl_cons, List.reverse_cons, List.find?_append]
    rw [ih]
    cases hvs : vs.reverse.find? (fun v => v.isSome) with
    | some w => rfl
    | none => cases v <;> rfl

theorem foldl_fillVal_none (col : List (Option String)) :
    col.foldl fillVal none = lastSome col := by
  rw [foldl_fillVal, lastSome]

theorem length_ffillAux (ac an ui un : Option String) (t : List Row) :
    (ffillAux ac an ui un t).length = t.length := by
  induction t generalizing ac an ui un with
  | nil => rfl
  | cons r rs ih => simp [ffillAux, ih]

theorem countP_role_ffillAux (ac an ui un : Option String) (t : List Row) :
    (ffillAux ac an ui un t).countP (fun r => r.role.isSome)
      = t.countP (fun r => r.role.isSome) := by
  induction t generalizing ac an ui un with
  | nil => rfl
  | cons r rs ih => simp [ffillAux, List.countP_cons, ih]

theorem ffillAux_getD (t : List Row) (ac an ui un : Option String) (i : Nat)
    (h : i < t.length) :
    ((ffillAux ac an ui un t).getD i defaultRow).agentCode
        = ((t.take (i+1)).map (fun r => r.agentCode)).foldl fillVal ac
    ∧ ((ffillAux ac an ui un t).getD i defaultRow).agentName
        = ((t.take (i+1)).map (fun r => r.agentName)).foldl fillVal an
    ∧ ((ffillAux ac an ui un t).getD i defaultRow).userId
        = ((t.take (i+1)).map (fun r => r.userId)).foldl fillVal ui
    ∧ ((ffillAux ac an ui un t).getD i defaultRow).userName
        = ((t.take (i+1)).map (fun r => r.userName)).foldl fillVal un
    ∧ ((ffillAux ac an ui un t).getD i defaultRow).role
        = (t.getD i defaultRow).role := by
  induction t generalizing ac an ui un i with
  | nil => exact absurd h (by simp)
  | cons r rs ih =>
    cases i with
    | zero => simp [ffillAux, List.getD_cons_zero]
    | succ i =>
      have h2 : i < rs.length := by simpa using h
      simpa [ffillAux, List.getD_cons_succ] using
        ih (fillVal ac r.agentCode) (fillVal an r.agentName)
          (fillVal ui r.userId) (fillVal un r.userName) i h2

theorem ffillAux_ne_none (ac an ui un : Option String) (t : List Row) :
    ∀ r ∈ ffillAux ac an ui un t,
      (ac ≠ none → r.agentCode ≠ none) ∧ (an ≠ none → r.agentName ≠ none) ∧
      (ui ≠ none → r.userId ≠ none) ∧ (un ≠ none → r.userName ≠ none) := by
  induction t generalizing ac an ui un with
  | nil => intro r hr; simp [ffillAux] at hr
  | cons x xs ih =>
    intro r hr
    simp only [ffillAux, List.mem_cons] at hr
    rcases hr with rfl | hr
    · exact ⟨fun h => fillVal_ne_none ac x.agentCode h,
        fun h => fillVal_ne_none an x.agentName h,
        fun h => fillVal_ne_none ui x.userId h,
        fun h => fillVal_ne_none un x.userName h⟩
    · have hrec := ih (fillVal ac x.agentCode) (fillVal an x.agentName)
        (fillVal ui x.userId) (fillVal un x.userName) r hr
      exact ⟨fun h => hrec.1 (fillVal_ne_none ac x.agentCode h),
        fun h => hrec.2.1 (fillVal_ne_none an x.agentName h),
        fun h => hrec.2.2.1 (fillVal_ne_none ui x.userId h),
        fun h => hrec.2.2.2 (fillVal_ne_none un x.userName h)⟩

/-- C1, counterexample: on the one-row source whose identifying columns are
all missing but whose Role is present, the row is retained by the loader with
the four columns still missing — forward-fill has no preceding value to take.
So it is false that every retained row has all four columns populated. -/
theorem C1_counterexample :
    ¬ (∀ r ∈ cleanTable [⟨none, none, none, none, some "Admin"⟩],
        r.agentCode ≠ none ∧ r.agentName ≠ none ∧ r.userId ≠ none ∧ r.userName ≠ none) := by
  decide

/-- C1 (amended): every cell of the forward-filled table holds the nearest
preceding-or-own non-missing value of its column (so a cell stays missing only
when no source row up to it has a value in that column); consequently, when
the first source row has Agent Code, Agent Name, User ID and User Name all
non-missing, every row retained in the cleaned table has all four columns
non-missing. -/
theorem C1_forward_fill_invariant (r0 : Row) (rest : List Row)
    (h1 : r0.agentCode ≠ none) (h2 : r0.agentName ≠ none)
    (h3 : r0.userId ≠ none) (h4 : r0.userName ≠ none) :
    (∀ r ∈ cleanTable (r0 :: rest),
        r.agentCode ≠ none ∧ r.agentName ≠ none ∧ r.userId ≠ none ∧ r.userName ≠ none)
    ∧ (∀ t : List Row, ∀ i, i < t.length →
        ((ffill t).getD i defaultRow).agentCode
            = lastSome ((t.take (i+1)).map (fun r => r.agentCode))
        ∧ ((ffill t).getD i defaultRow).agentName
            = lastSome ((t.take (i+1)).map (fun r => r.agentName))
        ∧ ((ffill t).getD i defaultRow).userId
            = lastSome ((t.take (i+1)).map (fun r => r.userId))
        ∧ ((ffill t).getD i defaultRow).userName
            = lastSome ((t.take (i+1)).map (fun r => r.userName))) := by
  constructor
  · intro r hr
    have hmem : r ∈ ffill (r0 :: rest) := (List.mem_filter.mp hr).1
    simp only [ffill, ffillAux, List.mem_cons] at hmem
    rcases hmem with rfl | hmem
    · refine ⟨?_, ?_, ?_, ?_⟩
      · simpa [fillVal_none] using h1
      · simpa [fillVal_none] using h2
      · simpa [fillVal_none] using h3
      · simpa [fillVal_none] using h4
    · have hrec := ffillAux_ne_none (fillVal none r0.agentCode) (fillVal none r0.agentName)
        (fillVal none r0.userId) (fillVal none r0.userName) rest r hmem
      rw [fillVal_none, fillVal_none, fillVal_none, fillVal_none] at hrec
      exact ⟨hrec.1 h1, hrec.2.1 h2, hrec.2.2.1 h3, hrec.2.2.2 h4⟩
  · intro t i hi
    have hg := ffillAux_getD t none none none none i hi
    rw [foldl_fillVal_none] at hg
    rw [foldl_fillVal_none] at hg
    rw [foldl_fillVal_none] at hg
    rw [foldl_fillVal_none] at hg
    exact ⟨hg.1, hg.2.1, hg.2.2.1, hg.2.2.2.1⟩

/-- Witness for C1: the amended invariant applied to the concrete three-row
example table, whose first row is fully populated. -/
theorem C1_witness :
    (∀ r ∈ cleanTable (⟨some "A1", some "Agt1", some "U1", some "Alice", some "Admin"⟩ ::
        [⟨some "A1", some "Agt1", some "U1", some "Alice", some "Viewer"⟩,
         ⟨some "A2", some "Agt2", some "U2", some "Bob", some "Admin"⟩]),
        r.agentCode ≠ none ∧ r.agentName ≠ none ∧ r.userId ≠ none ∧ r.userName ≠ none)
    ∧ (∀ t : List Row, ∀ i, i < t.length →
        ((ffill t).getD i defaultRow).agentCode
            = lastSome ((t.take (i+1)).map (fun r => r.agentCode))
        ∧ ((ffill t).getD i defaultRow).agentName
            = lastSome ((t.take (i+1)).map (fun r => r.agentName))
        ∧ ((ffill t).getD i defaultRow).userId
            = lastSome ((t.take (i+1)).map (fun r => r.userId))
        ∧ ((ffill t).getD i defaultRow).userName
            = lastSome ((t.take (i+1)).map (fun r => r.userName))) :=
  C1_forward_fill_invariant
    ⟨some "A1", some "Agt1", some "U1", some "Alice", some "Admin"⟩
    [⟨some "A1", some "Agt1", some "U1", some "Alice", some "Viewer"⟩,
     ⟨some "A2", some "Agt2", some "U2", some "Bob", some "Admin"⟩]
    (by decide) (by decide) (by decide) (by decide)

/-- C7: loading fails fast and produces no table when the source file is
missing (`pd.read_csv` raises) or when its column count is not five (the
positional rename `df.columns = [...]` raises): in either case `load_data`
yields an error and no cleaned table. -/
theorem C7_load_fails_fast :
    load_data none = Except.error missingFileMsg
    ∧ ∀ f : RawFile, f.ncols ≠ 5 → load_data (some f) = Except.error columnMismatchMsg := by
  refine ⟨rfl, fun f hf => ?_⟩
  simp [load_data, hf]

/-- Witness for C7: a four-column file is rejected outright. -/
theorem C7_witness :
    load_data (some ⟨4, []⟩) = Except.error columnMismatchMsg :=
  C7_load_fails_fast.2 ⟨4, []⟩ (by decide)

/-- C8: the load-and-clean transformation is deterministic — two loads of the
same source contents that succeed produce the same cleaned table. -/
theorem C8_load_deterministic (file : Option RawFile) (t₁ t₂ : List Row)
    (hload₁ : load_data file = Except.ok t₁) (hload₂ : load_data file = Except.ok t₂) :
    t₁ = t₂ := by
  rw [hload₁] at hload₂
  injection hload₂

/-- Witness for C8: two loads of the concrete one-row example file agree. -/
theorem C8_witness :
    cleanTable (List.map rowOfCells
        [[some "A1", some "Agt1", some "U1", some "Alice", some "Admin"]])
      = cleanTable (List.map rowOfCells
        [[some "A1", some "Agt1", some "U1", some "Alice", some "Admin"]]) :=
  C8_load_deterministic
    (some ⟨5, [[some "A1", some "Agt1", some "U1", some "Alice", some "Admin"]]⟩)
    _ _ rfl rfl

/-- C9: no row of the cleaned table has a missing Role; exactly the source
rows whose Role is present survive (those lacking a Role are discarded), and
forward-fill never touches the Role column (the filled table's Role at every
index equals the source Role at that index). -/
theorem C9_role_never_filled (t : List Row) :
    (∀ r ∈ cleanTable t, r.role ≠ none)
    ∧ (cleanTable t).length = t.countP (fun r => r.role.isSome)
    ∧ (∀ i, i < t.length →
        ((ffill t).getD i defaultRow).role = (t.getD i defaultRow).role) := by
  refine ⟨?_, ?_, ?_⟩
  · intro r hr
    have := (List.mem_filter.mp hr).2
    simp only [Option.isSome_iff_exists] at this
    rcases this with ⟨v, hv⟩
    simp [hv]
  · calc (cleanTable t).length
        = (ffill t).countP (fun r => r.role.isSome) :=
          (List.countP_eq_length_filter _ _).symm
      _ = t.countP (fun r => r.role.isSome) := countP_role_ffillAux none none none none t
  · intro i hi
    exact (ffillAux_getD t none none none none i hi).2.2.2.2

/-- Witness for C9: the Role of the filled example table at index zero is the
source Role there. -/
theorem C9_witness :
    ((ffill exampleTable).getD 0 defaultRow).role = (exampleTable.getD 0 defaultRow).role :=
  (C9_role_never_filled exampleTable).2.2 0 (by decide)

/-- C2: the Filter-by-Role view returns exactly the rows whose Role equals the
selection, projected to (User ID, User Name, Agent Name) and deduplicated on
that triple, and reports the size of that deduplicated set; on the three-row
example with Role "Admin" it yields exactly (U1, Alice, Agt1) and
(U2, Bob, Agt2). -/
theorem C2_filter_by_role (df : List Row) (ro : String) :
    (∀ p, p ∈ (page_filter_by_role df ro).1 ↔
        ∃ r ∈ df, r.role = some ro ∧ projRU r = p)
    ∧ (page_filter_by_role df ro).1.Nodup
    ∧ (page_filter_by_role df ro).2 = (page_filter_by_role df ro).1.length
    ∧ page_filter_by_role exampleTable "Admin" =
        ([(some "U1", some "Alice", some "Agt1"), (some "U2", some "Bob", some "Agt2")], 2) := by
  refine ⟨?_, nodup_drop_duplicates _, rfl, by decide⟩
  intro p
  simp only [page_filter_by_role]
  rw [mem_drop_duplicates]
  simp [List.mem_filter, and_assoc]

/-- Witness for C2: the first example row's projection is in the "Admin"
result. -/
theorem C2_witness :
    (some "U1", some "Alice", some "Agt1") ∈ (page_filter_by_role exampleTable "Admin").1 :=
  ((C2_filter_by_role exampleTable "Admin").1 _).mpr
    ⟨⟨some "A1", some "Agt1", some "U1", some "Alice", some "Admin"⟩,
      by decide, by decide, by decide⟩

/-- C6: the Filter-by-User view outputs the distinct Role values among rows
with the selected User Name, and a count equal to the number of those distinct
roles; on the example data, "Alice" yields the role set containing Admin and
Viewer, count 2. -/
theorem C6_filter_by_user (df : List Row) (u : String) :
    (∀ x, x ∈ (page_filter_by_user df u).1 ↔
        ∃ r ∈ df, r.userName = some u ∧ r.role = some x)
    ∧ (page_filter_by_user df u).1.Nodup
    ∧ (page_filter_by_user df u).2
        = ((df.filter (fun r => decide (r.userName = some u))).filterMap
            (fun r => r.role)).toFinset.card
    ∧ (page_filter_by_user exampleTable "Alice").1.toFinset
        = ({"Admin", "Viewer"} : Finset String)
    ∧ (page_filter_by_user exampleTable "Alice").2 = 2 := by
  refine ⟨?_, nodup_drop_duplicates _, length_drop_duplicates _, by decide, by decide⟩
  intro x
  simp only [page_filter_by_user]
  rw [mem_drop_duplicates]
  simp [List.mem_filterMap, List.mem_filter, and_assoc]

/-- Witness for C6: "Viewer" is among Alice's distinct roles. -/
theorem C6_witness : "Viewer" ∈ (page_filter_by_user exampleTable "Alice").1 :=
  ((C6_filter_by_user exampleTable "Alice").1 "Viewer").mpr
    ⟨⟨some "A1", some "Agt1", some "U1", some "Alice", some "Viewer"⟩,
      by decide, by decide, by decide⟩

/-- C10: the itemized role list of the Filter-by-User view is in first
occurrence order: it contains exactly the values of the Role stream of the
selected user's rows, and any two listed roles are ordered by the index of
their first occurrence in that stream. -/
theorem C10_first_occurrence_order (df : List Row) (u : String) :
    (∀ x, x ∈ (page_filter_by_user df u).1 ↔
        x ∈ (df.filter (fun r => decide (r.userName = some u))).filterMap (fun r => r.role))
    ∧ List.Pairwise (fun a b =>
        ((df.filter (fun r => decide (r.userName = some u))).filterMap
            (fun r => r.role)).indexOf a
          < ((df.filter (fun r => decide (r.userName = some u))).filterMap
              (fun r => r.role)).indexOf b)
        (page_filter_by_user df u).1 :=
  ⟨fun x => mem_drop_duplicates x _, pairwise_indexOf_drop_duplicates _⟩

/-- Witness for C10: on the example table Alice's roles list "Admin" before
"Viewer", matching their first occurrences at indices 0 and 1. -/
theorem C10_witness :
    "Admin" ∈ (page_filter_by_user exampleTable "Alice").1 :=
  ((C10_first_occurrence_order exampleTable "Alice").1 "Admin").mpr (by decide)

theorem mem_value_counts (l : List String) (p : String × Nat) :
    p ∈ value_counts l ↔ p.1 ∈ l ∧ p.2 = l.count p.1 := by
  rw [value_counts, (List.perm_insertionSort byCountDesc _).mem_iff]
  constructor
  · intro hp
    rcases List.mem_map.mp hp with ⟨v, hv, rfl⟩
    exact ⟨(mem_drop_duplicates v l).mp hv, rfl⟩
  · rintro ⟨h1, h2⟩
    refine List.mem_map.mpr ⟨p.1, (mem_drop_duplicates p.1 l).mpr h1, ?_⟩
    rw [← h2]

theorem nodup_fst_value_counts (l : List String) :
    ((value_counts l).map Prod.fst).Nodup := by
  have hperm : ((value_counts l).map Prod.fst).Perm
      (((drop_duplicates l).map (fun v => (v, l.count v))).map Prod.fst) :=
    (List.perm_insertionSort byCountDesc _).map Prod.fst
  have heq : ((drop_duplicates l).map (fun v => (v, l.count v))).map Prod.fst
      = drop_duplicates l := by
    simp only [List.map_map, Function.comp_def]
    simp
  rw [heq] at hperm
  exact hperm.symm.nodup (nodup_drop_duplicates l)

/-- C4: the statistics view's role-counts mapping assigns to each Role its row
count in the cleaned table (occurrence count, one per row), lists each present
role exactly once, and is ordered descending by count. -/
theorem C4_role_counts (df : List Row) :
    (∀ a n, ((a, n) ∈ role_counts df) ↔
        ((∃ r ∈ df, r.role = some a)
          ∧ n = (df.filter (fun r => decide (r.role = some a))).length))
    ∧ ((role_counts df).map Prod.fst).Nodup
    ∧ List.Sorted byCountDesc (role_counts df) := by
  refine ⟨?_, nodup_fst_value_counts _, List.sorted_insertionSort byCountDesc _⟩
  intro a n
  rw [role_counts, mem_value_counts, count_filterMap_length, List.mem_filterMap]

/-- Witness for C4: "Admin" occurs in two rows of the example table. -/
theorem C4_witness : ("Admin", 2) ∈ role_counts exampleTable :=
  ((C4_role_counts exampleTable).1 "Admin" 2).mpr
    ⟨⟨⟨some "A1", some "Agt1", some "U1", some "Alice", some "Admin"⟩,
        by decide, by decide⟩, by decide⟩

/-- C5: both the statistics view and the agent user-count view report, for
each Agent Name present, the number of distinct (non-missing) User ID values
among that agent's rows; the statistics view is additionally the same mapping
sorted descending by count. -/
theorem C5_users_per_agent (df : List Row) :
    (∀ a n, ((a, n) ∈ agent_user_counts df) ↔
        ((∃ r ∈ df, r.agentName = some a)
          ∧ n = ((df.filter (fun r => decide (r.agentName = some a))).filterMap
                (fun r => r.userId)).toFinset.card))
    ∧ (users_per_agent df).Perm (agent_user_counts df)
    ∧ List.Sorted byCountDesc (users_per_agent df) := by
  refine ⟨?_, List.perm_insertionSort byCountDesc _, List.sorted_insertionSort byCountDesc _⟩
  intro a n
  constructor
  · intro hp
    rcases List.mem_map.mp hp with ⟨v, hv, hvp⟩
    injection hvp with hv1 hv2
    subst hv1
    subst hv2
    have hv2 : v ∈ drop_duplicates (df.filterMap (fun r => r.agentName)) :=
      ((List.perm_insertionSort strLe _).mem_iff).mp hv
    exact ⟨List.mem_filterMap.mp ((mem_drop_duplicates v _).mp hv2),
      (length_drop_duplicates _)⟩
  · rintro ⟨hex, rfl⟩
    refine List.mem_map.mpr ⟨a, ?_, ?_⟩
    · exact ((List.perm_insertionSort strLe _).mem_iff).mpr
        ((mem_drop_duplicates a _).mpr (List.mem_filterMap.mpr hex))
    · rw [length_drop_duplicates]

/-- Witness for C5: agent "Agt1" has exactly one distinct user in the example
table. -/
theorem C5_witness : ("Agt1", 1) ∈ agent_user_counts exampleTable :=
  ((C5_users_per_agent exampleTable).1 "Agt1" 1).mpr
    ⟨⟨⟨some "A1", some "Agt1", some "U1", some "Alice", some "Admin"⟩,
        by decide, by decide⟩, by decide⟩

/-- C3: the Agent → Users → Roles view emits exactly one output row per
distinct User Name among the selected agent's rows; each row's Roles field is
that user's distinct roles under the agent, sorted lexicographically and
newline-joined, and its Number of Roles field is the count of those distinct
roles; for agent "Agt1" on the example table the single row is
(Alice, "Admin\nViewer", 2). -/
theorem C3_agent_users_roles (df : List Row) (a : String) :
    ((page_agent_users_roles df a).1.map (fun row => row.userName)).Nodup
    ∧ (∀ u, u ∈ (page_agent_users_roles df a).1.map (fun row => row.userName) ↔
        ∃ r ∈ df, r.agentName = some a ∧ r.userName = some u)
    ∧ (∀ row ∈ (page_agent_users_roles df a).1,
        ∃ s : List String, List.Sorted strLe s ∧ s.Nodup
          ∧ (∀ x, x ∈ s ↔
              ∃ r ∈ df, r.agentName = some a ∧ r.userName = some row.userName
                ∧ r.role = some x)
          ∧ row.roles = String.intercalate "\n" s
          ∧ row.numRoles = s.length)
    ∧ (page_agent_users_roles df a).2 = (page_agent_users_roles df a).1.length
    ∧ page_agent_users_roles exampleTable "Agt1"
        = ([⟨"Alice", "Admin\nViewer", 2⟩], 1) := by
  have hmap : (page_agent_users_roles df a).1.map (fun row => row.userName)
      = List.insertionSort strLe (drop_duplicates
          ((df.filter (fun r => decide (r.agentName = some a))).filterMap
            (fun r => r.userName))) := by
    simp only [page_agent_users_roles, List.map_map, Function.comp_def]
    exact List.map_id' _
  refine ⟨?_, ?_, ?_, rfl, by decide⟩
  · rw [hmap]
    exact ((List.perm_insertionSort strLe _).nodup_iff).mpr (nodup_drop_duplicates _)
  · intro u
    rw [hmap, (List.perm_insertionSort strLe _).mem_iff, mem_drop_duplicates]
    simp [List.mem_filterMap, List.mem_filter, and_assoc]
  · intro row hrow
    simp only [page_agent_users_roles, List.mem_map] at hrow
    rcases hrow with ⟨u, hu, rfl⟩
    refine ⟨List.insertionSort strLe (drop_duplicates
        (((df.filter (fun r => decide (r.agentName = some a))).filter
            (fun r => decide (r.userName = some u))).filterMap (fun r => r.role))),
      List.sorted_insertionSort strLe _,
      ((List.perm_insertionSort strLe _).nodup_iff).mpr (nodup_drop_duplicates _),
      ?_, rfl, ((List.perm_insertionSort strLe _).length_eq).symm⟩
    intro x
    rw [(List.perm_insertionSort strLe _).mem_iff, mem_drop_duplicates]
    simp [List.mem_filterMap, List.mem_filter, and_assoc, and_left_comm]

/-- Witness for C3: Alice appears among the user names listed for agent
"Agt1". -/
theorem C3_witness :
    "Alice" ∈ (page_agent_users_roles exampleTable "Agt1").1.map (fun row => row.userName) :=
  ((C3_agent_users_roles exampleTable "Agt1").2.1 "Alice").mpr
    ⟨⟨some "A1", some "Agt1", some "U1", some "Alice", some "Admin"⟩,
      by decide, by decide, by decide⟩

end UsersApp
